import Mathlib

/-!
Verification development for the taskcast core (Rust workspace):
a shallow embedding of `taskcast-core` (state machine, filter, series
processor, cleanup matcher, in-memory short-term store, task engine)
into Lean, with theorems checking the natural-language specification.

Modelling conventions:
* Rust `u64` counters are `Nat` reduced modulo `2 ^ 64` where the code
  uses wrapping atomic arithmetic (`AtomicU64::fetch_add`).
* `f64` millisecond timestamps are embedded as `Int` (the code only
  compares and subtracts them; all values of interest are integral).
* `serde_json::Value` is embedded as the inductive `Json`; JSON objects
  are association lists with insert-replaces-in-place semantics.
* `HashMap` fields of the in-memory store are association lists with
  first-match lookup and replace-or-append insertion.
* Rust `&str` / `String` are Lean `String`; the byte-level operations
  `starts_with` / `strip_suffix` are embedded at `List Char` level via
  `.data`, which agrees with Rust on valid UTF-8.
-/

namespace Taskcast

-- ─── JSON values (serde_json::Value) ────────────────────────────────────────

inductive Json where
  | null : Json
  | bool (b : Bool) : Json
  | num (n : Int) : Json
  | str (s : String) : Json
  | arr (elems : List Json) : Json
  | obj (fields : List (String × Json)) : Json
deriving Repr

-- ─── Association-list primitives (HashMap / serde_json::Map embedding) ──────

/-- Insert that replaces the first binding of the key in place, or appends
a new binding at the end (`HashMap::insert` / `serde_json::Map::insert`). -/
def insertA (k : String) (v : α) : List (String × α) → List (String × α)
  | [] => [(k, v)]
  | (k', v') :: rest => if k == k' then (k, v) :: rest else (k', v') :: insertA k v rest

/-- Index of the last element satisfying `p` (Rust `Iterator::rposition`). -/
def rposition (p : α → Bool) : List α → Option Nat
  | [] => none
  | x :: xs =>
    match rposition p xs with
    | some i => some (i + 1)
    | none => if p x then some 0 else none

-- ─── Core enums and records (taskcast-core/src/types.rs) ────────────────────

inductive TaskStatus where
  | pending | running | completed | failed | timeout | cancelled
deriving DecidableEq, Repr

structure TaskError where
  code : Option String
  message : String
  details : Option (List (String × Json))
deriving Repr

inductive PermissionScope where
  | taskCreate | taskManage | eventPublish | eventSubscribe
  | eventHistory | webhookCreate | all
deriving DecidableEq, Repr

inductive BackoffStrategy where
  | fixed | exponential | linear
deriving DecidableEq, Repr

structure RetryConfig where
  retries : Nat
  backoff : BackoffStrategy
  initial_delay_ms : Nat
  max_delay_ms : Nat
  timeout_ms : Nat
deriving Repr

inductive SeriesMode where
  | keepAll | accumulate | latest
deriving DecidableEq, Repr

inductive Level where
  | debug | info | warn | error
deriving DecidableEq, Repr

inductive CleanupTarget where
  | all | events | task
deriving DecidableEq, Repr

structure CleanupRuleMatch where
  task_types : Option (List String)
  status : Option (List TaskStatus)
deriving Repr

structure CleanupTrigger where
  after_ms : Option Nat
deriving Repr

structure CleanupEventFilter where
  types : Option (List String)
  levels : Option (List Level)
  older_than_ms : Option Nat
  series_mode : Option (List SeriesMode)
deriving Repr

structure CleanupRule where
  name : Option String
  rmatch : Option CleanupRuleMatch
  trigger : CleanupTrigger
  target : CleanupTarget
  event_filter : Option CleanupEventFilter
deriving Repr

structure CleanupConfig where
  rules : List CleanupRule
deriving Repr

structure SinceCursor where
  id : Option String
  index : Option Nat
  timestamp : Option Int
deriving Repr

structure SubscribeFilter where
  since : Option SinceCursor
  types : Option (List String)
  levels : Option (List Level)
  include_status : Option Bool
  wrap : Option Bool
deriving Repr

structure TaskAuthRuleMatch where
  scope : List PermissionScope
deriving Repr

structure TaskAuthRuleRequire where
  claims : Option (List (String × Json))
  sub : Option (List String)
deriving Repr

structure TaskAuthRule where
  rmatch : TaskAuthRuleMatch
  require : TaskAuthRuleRequire
deriving Repr

structure TaskAuthConfig where
  rules : List TaskAuthRule
deriving Repr

structure WebhookConfig where
  url : String
  filter : Option SubscribeFilter
  secret : Option String
  wrap : Option Bool
  retry : Option RetryConfig
deriving Repr

structure Task where
  id : String
  type : Option String
  status : TaskStatus
  params : Option (List (String × Json))
  result : Option (List (String × Json))
  error : Option TaskError
  metadata : Option (List (String × Json))
  created_at : Int
  updated_at : Int
  completed_at : Option Int
  ttl : Option Nat
  auth_config : Option TaskAuthConfig
  webhooks : Option (List WebhookConfig)
  cleanup : Option CleanupConfig
deriving Repr

structure TaskEvent where
  id : String
  task_id : String
  index : Nat
  timestamp : Int
  type : String
  level : Level
  data : Json
  series_id : Option String
  series_mode : Option SeriesMode
deriving Repr

structure EventQueryOptions where
  since : Option SinceCursor
  limit : Option Nat
deriving Repr

/-- A task event annotated with its filtered and raw indices
(taskcast-core/src/filter.rs `FilteredEvent`). -/
structure FilteredEvent where
  filtered_index : Nat
  raw_index : Nat
  event : TaskEvent
deriving Repr

-- ─── State machine (taskcast-core/src/state_machine.rs) ─────────────────────

def TERMINAL_STATUSES : List TaskStatus :=
  [.completed, .failed, .timeout, .cancelled]

def allowed_transitions : TaskStatus → List TaskStatus
  | .pending => [.running, .cancelled]
  | .running => [.completed, .failed, .timeout, .cancelled]
  | .completed | .failed | .timeout | .cancelled => []

def can_transition (cfrom cto : TaskStatus) : Bool :=
  if cfrom = cto then false
  else (allowed_transitions cfrom).contains cto

def is_terminal (status : TaskStatus) : Bool :=
  TERMINAL_STATUSES.contains status

/-- C4: `can_transition` returns true exactly for the six pairs
Pending→Running, Pending→Cancelled, Running→Completed, Running→Failed,
Running→Timeout, Running→Cancelled (in particular never for a
self-transition), and `is_terminal` returns true exactly for Completed,
Failed, Timeout and Cancelled. -/
theorem can_transition_characterization :
    (∀ a b : TaskStatus,
      can_transition a b = true ↔
        ((a = .pending ∧ b = .running) ∨ (a = .pending ∧ b = .cancelled) ∨
         (a = .running ∧ b = .completed) ∨ (a = .running ∧ b = .failed) ∨
         (a = .running ∧ b = .timeout) ∨ (a = .running ∧ b = .cancelled)))
    ∧ (∀ a : TaskStatus, can_transition a a = false)
    ∧ (∀ s : TaskStatus,
        is_terminal s = true ↔
          (s = .completed ∨ s = .failed ∨ s = .timeout ∨ s = .cancelled)) := by
  refine ⟨?_, ?_, ?_⟩
  · intro a b
    cases a <;> cases b <;> simp [can_transition, allowed_transitions]
  · intro a
    cases a <;> simp [can_transition]
  · intro s
    cases s <;> simp [is_terminal, TERMINAL_STATUSES]

-- ─── String helpers (Rust str operations) ───────────────────────────────────

/-- Rust `str::starts_with`, at char-sequence level. -/
def startsWithStr (s p : String) : Bool :=
  p.data.isPrefixOf s.data

/-- Rust `str::strip_suffix`: if `suffix` ends `s`, return `s` without it. -/
def stripSuffixStr (s suffix : String) : Option String :=
  if suffix.data.isSuffixOf s.data then
    some (String.mk (s.data.take (s.data.length - suffix.data.length)))
  else none

-- ─── Filter (taskcast-core/src/filter.rs) ───────────────────────────────────

def matches_type (event_type : String) (patterns : Option (List String)) : Bool :=
  match patterns with
  | none => true
  | some ps =>
    if ps.isEmpty then false
    else
      ps.any fun pattern =>
        if pattern == "*" then true
        else
          match stripSuffixStr pattern ".*" with
          | some pre => startsWithStr event_type (pre ++ ".")
          | none => event_type == pattern

def matches_filter (event : TaskEvent) (filter : SubscribeFilter) : Bool :=
  let include_status := filter.include_status.getD true
  if !include_status && event.type == "taskcast:status" then false
  else if (match filter.types with
           | some types => !(matches_type event.type (some types))
           | none => false) then false
  else if (match filter.levels with
           | some levels => !(levels.contains event.level)
           | none => false) then false
  else true

/-- The loop body of `apply_filtered_index`: walk the events carrying the
`filtered_counter`, with the `since.index` cursor already extracted (the
source extracts it once before the loop). -/
def applyFilteredLoop (filter : SubscribeFilter) (since_index : Option Nat) :
    List TaskEvent → Nat → List FilteredEvent
  | [], _ => []
  | event :: rest, filtered_counter =>
    if !(matches_filter event filter) then
      applyFilteredLoop filter since_index rest filtered_counter
    else
      let current_filtered_index := filtered_counter
      let next := applyFilteredLoop filter since_index rest (filtered_counter + 1)
      match since_index with
      | some idx =>
        if current_filtered_index ≤ idx then next
        else ⟨current_filtered_index, event.index, event⟩ :: next
      | none => ⟨current_filtered_index, event.index, event⟩ :: next

def apply_filtered_index (events : List TaskEvent) (filter : SubscribeFilter) :
    List FilteredEvent :=
  applyFilteredLoop filter (filter.since.bind fun s => s.index) events 0

/-- Spec-side reformulation of `apply_filtered_index`, written from the
claim's words: take exactly the events passing `matches_filter`, number them
consecutively from 0 in raw order, and, when `since.index` is present, drop
the annotated events whose filtered index is ≤ the cursor. -/
def applyFilteredIndexSpec (events : List TaskEvent) (filter : SubscribeFilter) :
    List FilteredEvent :=
  let annotated :=
    ((events.filter fun e => matches_filter e filter).enum).map
      fun p => FilteredEvent.mk p.1 p.2.index p.2
  match filter.since.bind fun s => s.index with
  | none => annotated
  | some idx => annotated.filter fun fe => idx < fe.filtered_index

/-- The annotated tail of the spec computation, starting the numbering at `c`. -/
def annotFrom (filter : SubscribeFilter) (c : Nat) (events : List TaskEvent) :
    List FilteredEvent :=
  ((events.filter fun e => matches_filter e filter).enumFrom c).map
    fun p => FilteredEvent.mk p.1 p.2.index p.2

theorem annotFrom_nil (filter : SubscribeFilter) (c : Nat) :
    annotFrom filter c [] = [] := rfl

theorem annotFrom_cons (filter : SubscribeFilter) (c : Nat) (e : TaskEvent)
    (rest : List TaskEvent) :
    annotFrom filter c (e :: rest) =
      if matches_filter e filter then
        FilteredEvent.mk c e.index e :: annotFrom filter (c + 1) rest
      else annotFrom filter c rest := by
  by_cases h : matches_filter e filter = true
  · simp [annotFrom, List.filter_cons, h, List.enumFrom]
  · simp [annotFrom, List.filter_cons, h]

theorem applyFilteredLoop_eq_annotFrom (filter : SubscribeFilter)
    (since_index : Option Nat) :
    ∀ (events : List TaskEvent) (c : Nat),
      applyFilteredLoop filter since_index events c =
        (match since_index with
         | none => annotFrom filter c events
         | some idx => (annotFrom filter c events).filter
             fun fe => idx < fe.filtered_index) := by
  intro events
  induction events with
  | nil => intro c; cases since_index <;> simp [applyFilteredLoop, annotFrom_nil]
  | cons e rest ih =>
    intro c
    by_cases hm : matches_filter e filter = true
    · cases since_index with
      | none =>
        simp only [applyFilteredLoop, hm, Bool.not_true, Bool.false_eq_true,
          if_false, annotFrom_cons, if_true]
        simp [ih]
      | some idx =>
        simp only [applyFilteredLoop, hm, Bool.not_true, Bool.false_eq_true,
          if_false, annotFrom_cons, if_true]
        by_cases hc : c ≤ idx
        · have hlt : ¬ idx < c := by omega
          simp [hc, ih, List.filter_cons, hlt]
        · have hlt : idx < c := by omega
          simp [hc, ih, List.filter_cons, hlt]
    · have hm' : matches_filter e filter = false := by
        simpa using hm
      cases since_index with
      | none =>
        simp only [applyFilteredLoop, hm', Bool.not_false, if_true,
          annotFrom_cons, Bool.false_eq_true, if_false]
        simp [ih]
      | some idx =>
        simp only [applyFilteredLoop, hm', Bool.not_false, if_true,
          annotFrom_cons, Bool.false_eq_true, if_false]
        simp [ih]

/-- C6: `apply_filtered_index` assigns consecutive filtered indices
0, 1, 2, … in raw order to exactly the events passing `matches_filter`;
with a `since.index` cursor, matching events with filtered index ≤ the
cursor are omitted while the counter still advances for them; and
`since.id` / `since.timestamp` play no role in filtered-index assignment. -/
theorem apply_filtered_index_characterization :
    (∀ (events : List TaskEvent) (filter : SubscribeFilter),
      apply_filtered_index events filter = applyFilteredIndexSpec events filter)
    ∧ (∀ (events : List TaskEvent) (idx : Option Nat)
        (id1 id2 : Option String) (ts1 ts2 : Option Int)
        (types : Option (List String)) (levels : Option (List Level))
        (include_status wrap : Option Bool),
        apply_filtered_index events
            ⟨some ⟨id1, idx, ts1⟩, types, levels, include_status, wrap⟩ =
          apply_filtered_index events
            ⟨some ⟨id2, idx, ts2⟩, types, levels, include_status, wrap⟩) := by
  have key : ∀ (events : List TaskEvent) (filter : SubscribeFilter),
      apply_filtered_index events filter = applyFilteredIndexSpec events filter := by
    intro events filter
    unfold apply_filtered_index applyFilteredIndexSpec
    rw [applyFilteredLoop_eq_annotFrom]
    cases filter.since.bind fun s => s.index <;>
      simp [annotFrom, List.enum]
  refine ⟨key, ?_⟩
  intro events idx id1 id2 ts1 ts2 types levels include_status wrap
  rw [key, key]
  rfl


theorem isPrefixOf_append_self {α} [BEq α] [LawfulBEq α] :
    ∀ (l r : List α), l.isPrefixOf (l ++ r) = true
  | [], _ => by simp [List.isPrefixOf]
  | a :: as, r => by
    simp [List.isPrefixOf, isPrefixOf_append_self as r]

theorem isSuffixOf_append_self {α} [BEq α] [LawfulBEq α] (l r : List α) :
    r.isSuffixOf (l ++ r) = true := by
  simp only [List.isSuffixOf, List.reverse_append]
  exact isPrefixOf_append_self _ _

theorem stripSuffixStr_append (p : String) :
    stripSuffixStr (p ++ ".*") ".*" = some p := by
  have hdata : (p ++ ".*").data = p.data ++ ['.', '*'] := rfl
  have hsuf : (".*".data).isSuffixOf (p ++ ".*").data = true := by
    rw [hdata]; exact isSuffixOf_append_self _ _
  have hlen : (p ++ ".*").data.length - (".*".data).length = p.data.length := by
    rw [hdata]; simp
  unfold stripSuffixStr
  rw [hsuf, if_pos rfl, hlen, hdata, List.take_left]

theorem append_dot_star_ne_star (p : String) : (p ++ ".*") ≠ "*" := by
  intro h
  have : (p ++ ".*").data.length = ("*" : String).data.length := by rw [h]
  have hdata : (p ++ ".*").data = p.data ++ ['.', '*'] := rfl
  rw [hdata] at this
  simp at this

/-- C8: `matches_type` accepts everything when patterns are absent, rejects
everything on an explicitly empty pattern list, treats `"*"` as a universal
wildcard, treats `"prefix.*"` as matching exactly the types that begin with
`"prefix."` (so `"llm.*"` matches `"llm.delta"` and `"llm.delta.chunk"` but
not `"llm"`), and matches any other pattern only by exact equality. -/
theorem matches_type_characterization :
    (∀ t : String, matches_type t none = true)
    ∧ (∀ t : String, matches_type t (some []) = false)
    ∧ (∀ t : String, matches_type t (some ["*"]) = true)
    ∧ (∀ (pre t : String),
        matches_type t (some [pre ++ ".*"]) = startsWithStr t (pre ++ "."))
    ∧ (∀ (p t : String), p ≠ "*" → stripSuffixStr p ".*" = none →
        matches_type t (some [p]) = (t == p))
    ∧ matches_type "llm.delta" (some ["llm.*"]) = true
    ∧ matches_type "llm.delta.chunk" (some ["llm.*"]) = true
    ∧ matches_type "llm" (some ["llm.*"]) = false := by
  refine ⟨fun t => rfl, fun t => rfl, fun t => rfl, ?_, ?_, by decide, by decide, by decide⟩
  · intro pre t
    have hne := append_dot_star_ne_star pre
    simp [matches_type, hne, stripSuffixStr_append]
  · intro p t hstar hsuffixless
    simp [matches_type, hstar, hsuffixless]

/-- Witness for C8: the exact-equality branch applied to the concrete pattern
`"progress"`, which is neither `"*"` nor a prefix wildcard. -/
theorem matches_type_characterization_witness :
    matches_type "progress" (some ["progress"]) = ("progress" == "progress") :=
  matches_type_characterization.2.2.2.2.1 "progress" "progress"
    (by decide) (by decide)

-- ─── In-memory short-term store (taskcast-core/src/memory_adapters.rs) ──────

/-- State of `MemoryShortTermStore`. The four `HashMap`s become association
lists; the per-task `AtomicU64` index counters become `Nat` values kept
below `2 ^ 64`. Operations are modelled sequentially: every store method is
atomic in the source (each takes the relevant lock for its whole body), so
an arbitrary concurrent execution is a sequence of whole operations. -/
structure Store where
  tasks : List (String × Task)
  events : List (String × List TaskEvent)
  series_latest : List (String × TaskEvent)
  index_counters : List (String × Nat)

def Store.empty : Store := ⟨[], [], [], []⟩

def u64Modulus : Nat := 2 ^ 64

/-- Key used for the series-latest map: `format!("{task_id}:{series_id}")`. -/
def seriesKey (task_id series_id : String) : String :=
  task_id ++ ":" ++ series_id

def save_task (st : Store) (task : Task) : Store :=
  { st with tasks := insertA task.id task st.tasks }

def get_task (st : Store) (task_id : String) : Option Task :=
  st.tasks.lookup task_id

def append_event (st : Store) (task_id : String) (event : TaskEvent) : Store :=
  let old := (st.events.lookup task_id).getD []
  { st with events := insertA task_id (old ++ [event]) st.events }

/-- Cursor / limit application of `get_events`, factored over the fetched
event list (the source first clones the task's full list, then applies
`since` and `limit`). -/
def applyEventQuery (all : List TaskEvent) (opts : Option EventQueryOptions) :
    List TaskEvent :=
  match opts with
  | none => all
  | some o =>
    let result :=
      match o.since with
      | none => all
      | some since =>
        match since.id with
        | some id =>
          match all.findIdx? (fun e => e.id == id) with
          | some i => all.drop (i + 1)
          | none => all
        | none =>
          match since.index with
          | some index => all.filter fun e => index < e.index
          | none =>
            match since.timestamp with
            | some timestamp => all.filter fun e => timestamp < e.timestamp
            | none => all
    match o.limit with
    | some limit => result.take limit
    | none => result

def get_events (st : Store) (task_id : String)
    (opts : Option EventQueryOptions) : List TaskEvent :=
  applyEventQuery ((st.events.lookup task_id).getD []) opts

def set_ttl (st : Store) (_task_id : String) (_ttl_seconds : Nat) : Store :=
  st

def get_series_latest (st : Store) (task_id series_id : String) :
    Option TaskEvent :=
  st.series_latest.lookup (seriesKey task_id series_id)

def set_series_latest (st : Store) (task_id series_id : String)
    (event : TaskEvent) : Store :=
  { st with series_latest :=
      insertA (seriesKey task_id series_id) event st.series_latest }

def replace_last_series_event (st : Store) (task_id series_id : String)
    (event : TaskEvent) : Store :=
  let key := seriesKey task_id series_id
  let prev := st.series_latest.lookup key
  let st1 :=
    match prev with
    | some prev =>
      match st.events.lookup task_id with
      | some task_events =>
        match rposition (fun (e : TaskEvent) => e.id == prev.id) task_events with
        | some idx =>
          { st with events := insertA task_id (task_events.set idx event) st.events }
        | none => st
      | none => st
    | none => append_event st task_id event
  { st1 with series_latest := insertA key event st1.series_latest }

def next_index (st : Store) (task_id : String) : Nat × Store :=
  let counter := (st.index_counters.lookup task_id).getD 0
  (counter,
    { st with index_counters :=
        insertA task_id ((counter + 1) % u64Modulus) st.index_counters })

/-- C5: `getEvents` cursor precedence — `since.id` wins over the other cursor
fields and drops everything up to and including the first event with that id
(a missing id means the cursor is ignored); otherwise `since.index` wins over
`since.timestamp` as a strict filter; `since.timestamp` filters strictly; and
`limit` truncates the sequence obtained after the cursor is applied. -/
theorem get_events_cursor_precedence :
    (∀ (all : List TaskEvent) (id : String) (idxo : Option Nat)
        (tso : Option Int) (i : Nat),
      all.findIdx? (fun e => e.id == id) = some i →
      applyEventQuery all (some ⟨some ⟨some id, idxo, tso⟩, none⟩) =
        all.drop (i + 1))
    ∧ (∀ (all : List TaskEvent) (id : String) (idxo : Option Nat)
        (tso : Option Int),
      all.findIdx? (fun e => e.id == id) = none →
      applyEventQuery all (some ⟨some ⟨some id, idxo, tso⟩, none⟩) = all)
    ∧ (∀ (all : List TaskEvent) (index : Nat) (tso : Option Int),
      applyEventQuery all (some ⟨some ⟨none, some index, tso⟩, none⟩) =
        all.filter fun e => index < e.index)
    ∧ (∀ (all : List TaskEvent) (timestamp : Int),
      applyEventQuery all (some ⟨some ⟨none, none, some timestamp⟩, none⟩) =
        all.filter fun e => timestamp < e.timestamp)
    ∧ (∀ (all : List TaskEvent) (since : Option SinceCursor) (limit : Nat),
      applyEventQuery all (some ⟨since, some limit⟩) =
        (applyEventQuery all (some ⟨since, none⟩)).take limit) := by
  refine ⟨?_, ?_, fun all index tso => rfl, fun all timestamp => rfl,
    fun all since limit => rfl⟩
  · intro all id idxo tso i hfind
    simp [applyEventQuery, hfind]
  · intro all id idxo tso hfind
    simp [applyEventQuery, hfind]

/-- Witness for C5: the `since.id` branch on a concrete three-event list,
with lower-priority cursor fields also set. -/
theorem get_events_cursor_precedence_witness :
    applyEventQuery
        [⟨"e1", "t1", 0, 1000, "a", .info, .null, none, none⟩,
         ⟨"e2", "t1", 1, 2000, "b", .info, .null, none, none⟩,
         ⟨"e3", "t1", 2, 3000, "c", .info, .null, none, none⟩]
        (some ⟨some ⟨some "e2", some 0, some 500⟩, none⟩) =
      List.drop (1 + 1)
        [⟨"e1", "t1", 0, 1000, "a", .info, .null, none, none⟩,
         ⟨"e2", "t1", 1, 2000, "b", .info, .null, none, none⟩,
         ⟨"e3", "t1", 2, 3000, "c", .info, .null, none, none⟩] :=
  get_events_cursor_precedence.1 _ "e2" (some 0) (some 500) 1 (by rfl)

theorem lookup_insertA_self (k : String) (v : α) :
    ∀ l : List (String × α), (insertA k v l).lookup k = some v
  | [] => by simp [insertA, List.lookup]
  | (k', v') :: rest => by
    by_cases h : (k == k') = true
    · simp [insertA, h, List.lookup]
    · have h' : (k == k') = false := by simpa using h
      simp [insertA, h', List.lookup, lookup_insertA_self k v rest]

theorem rposition_eq_none (p : α → Bool) :
    ∀ l : List α, (∀ x ∈ l, p x = false) → rposition p l = none
  | [], _ => rfl
  | x :: xs, h => by
    have hxs : rposition p xs = none :=
      rposition_eq_none p xs fun y hy => h y (List.mem_cons_of_mem x hy)
    simp [rposition, hxs, h x (List.mem_cons_self x xs)]

/-- C10: when a previous series-latest exists but no event in the task's log
carries its id, `replace_last_series_event` leaves the whole event-log map
(and the task and counter maps) unchanged — the new event is neither
appended nor inserted — while the series-latest entry is overwritten with
the new event. -/
theorem replace_last_series_event_missing_prev_frame :
    ∀ (st : Store) (task_id series_id : String) (event prev : TaskEvent),
      get_series_latest st task_id series_id = some prev →
      (∀ e ∈ (st.events.lookup task_id).getD [], (e.id == prev.id) = false) →
      (replace_last_series_event st task_id series_id event).events = st.events
      ∧ (replace_last_series_event st task_id series_id event).tasks = st.tasks
      ∧ (replace_last_series_event st task_id series_id event).index_counters =
          st.index_counters
      ∧ get_series_latest (replace_last_series_event st task_id series_id event)
          task_id series_id = some event := by
  intro st task_id series_id event prev hprev hnone
  have hkey : st.series_latest.lookup (seriesKey task_id series_id) = some prev :=
    hprev
  unfold replace_last_series_event
  cases hev : st.events.lookup task_id with
  | none =>
    simp only [hkey, hev, get_series_latest]
    exact ⟨trivial, trivial, trivial, lookup_insertA_self _ _ _⟩
  | some task_events =>
    have hrp : rposition (fun (e : TaskEvent) => e.id == prev.id) task_events
        = none := by
      apply rposition_eq_none
      intro x hx
      exact hnone x (by simpa [hev] using hx)
    simp only [hkey, hev, hrp, get_series_latest]
    exact ⟨trivial, trivial, trivial, lookup_insertA_self _ _ _⟩

/-- Witness for C10: a store whose series-latest for `("t1","s1")` names an
event id (`"gone"`) that no longer occurs in the task's log. -/
theorem replace_last_series_event_missing_prev_frame_witness :
    (replace_last_series_event
        ⟨[], [("t1", [⟨"kept", "t1", 0, 1000, "a", .info, .null, none, none⟩])],
         [("t1:s1", ⟨"gone", "t1", 0, 500, "a", .info, .null, none, none⟩)], []⟩
        "t1" "s1" ⟨"new", "t1", 1, 2000, "b", .info, .null, none, none⟩).events =
      [("t1", [⟨"kept", "t1", 0, 1000, "a", .info, .null, none, none⟩])] :=
  (replace_last_series_event_missing_prev_frame
    ⟨[], [("t1", [⟨"kept", "t1", 0, 1000, "a", .info, .null, none, none⟩])],
     [("t1:s1", ⟨"gone", "t1", 0, 500, "a", .info, .null, none, none⟩)], []⟩
    "t1" "s1" ⟨"new", "t1", 1, 2000, "b", .info, .null, none, none⟩
    ⟨"gone", "t1", 0, 500, "a", .info, .null, none, none⟩
    (by rfl) (by decide)).1

-- ─── Series processor (taskcast-core/src/series.rs) ─────────────────────────

def Json.asObject : Json → Option (List (String × Json))
  | .obj fields => some fields
  | _ => none

def Json.asStr : Json → Option String
  | .str s => some s
  | _ => none

/-- `data.as_object().and_then(|o| o.get("text")?.as_str())`:
the string value of an object's `"text"` field, if any. -/
def getTextField (data : Json) : Option String :=
  data.asObject.bind fun o => (o.lookup "text").bind Json.asStr

def process_series (event : TaskEvent) (st : Store) : TaskEvent × Store :=
  match event.series_id, event.series_mode with
  | some series_id, some series_mode =>
    match series_mode with
    | .keepAll => (event, st)
    | .accumulate =>
      let prev := get_series_latest st event.task_id series_id
      let merged :=
        match prev with
        | some prev =>
          let should_concat :=
            (getTextField prev.data).bind fun prev_text =>
              (getTextField event.data).map fun new_text => (prev_text, new_text)
          match should_concat with
          | some (prev_text, new_text) =>
            let new_data := (event.data.asObject).getD []
            { event with
              data := .obj (insertA "text" (.str (prev_text ++ new_text)) new_data) }
          | none => event
        | none => event
      (merged, set_series_latest st merged.task_id series_id merged)
    | .latest =>
      (event, replace_last_series_event st event.task_id series_id event)
  | _, _ => (event, st)

theorem lookup_insertA_ne (k k' : String) (v : α) (h : k ≠ k') :
    ∀ l : List (String × α), (insertA k' v l).lookup k = l.lookup k
  | [] => by
    have hb : (k == k') = false := by simpa using h
    simp [insertA, List.lookup, hb]
  | (a, b) :: rest => by
    by_cases ha : (k' == a) = true
    · have hak : a = k' := (eq_of_beq ha).symm
      have hb : (k == k') = false := by simpa using h
      simp [insertA, ha, List.lookup, hak, hb]
    · have ha' : (k' == a) = false := by simpa using ha
      by_cases hka : (k == a) = true
      · simp [insertA, ha', List.lookup, hka]
      · have hka' : (k == a) = false := by simpa using hka
        simp [insertA, ha', List.lookup, hka',
          lookup_insertA_ne k k' v h rest]

-- concrete "a", "b", "c" accumulate run (spec §8.6), used by the C7 theorem

def accEvent (id : String) (index : Nat) (text : String) : TaskEvent :=
  ⟨id, "t1", index, 1000 + index, "llm.delta", .info,
   .obj [("text", .str text), ("seq", .num index)], some "s1", some .accumulate⟩

def accRun1 : TaskEvent × Store := process_series (accEvent "e1" 0 "a") Store.empty
def accRun2 : TaskEvent × Store := process_series (accEvent "e2" 1 "b") accRun1.2
def accRun3 : TaskEvent × Store := process_series (accEvent "e3" 2 "c") accRun2.2

/-- C7: under `accumulate`, when a previous series-latest exists and both its
data and the new event's data are objects with a string `"text"` field, the
returned event is the new event with `"text"` replaced by the concatenation
and every other field of the new data preserved; in every other case the new
event is returned unchanged; in all cases the returned event becomes the new
series latest. In particular the `{text:"a"},{text:"b"},{text:"c"}` run
returns `"abc"` for the last call. -/
theorem process_series_accumulate_characterization :
    (∀ (event : TaskEvent) (st : Store) (series_id : String) (prev : TaskEvent)
        (prev_text new_text : String),
      event.series_id = some series_id →
      event.series_mode = some .accumulate →
      get_series_latest st event.task_id series_id = some prev →
      getTextField prev.data = some prev_text →
      getTextField event.data = some new_text →
      ({ (process_series event st).1 with data := event.data } = event
       ∧ getTextField (process_series event st).1.data =
           some (prev_text ++ new_text)
       ∧ ∀ k : String, k ≠ "text" →
           (((process_series event st).1.data.asObject).getD []).lookup k =
             ((event.data.asObject).getD []).lookup k))
    ∧ (∀ (event : TaskEvent) (st : Store) (series_id : String),
      event.series_id = some series_id →
      event.series_mode = some .accumulate →
      (get_series_latest st event.task_id series_id = none
       ∨ ∃ prev, get_series_latest st event.task_id series_id = some prev
           ∧ (getTextField prev.data = none ∨ getTextField event.data = none)) →
      (process_series event st).1 = event)
    ∧ (∀ (event : TaskEvent) (st : Store) (series_id : String),
      event.series_id = some series_id →
      event.series_mode = some .accumulate →
      get_series_latest (process_series event st).2 event.task_id series_id =
        some (process_series event st).1)
    ∧ getTextField accRun3.1.data = some "abc"
    ∧ { accRun3.1 with data := (accEvent "e3" 2 "c").data } = accEvent "e3" 2 "c"
    ∧ (accRun3.1.data.asObject.getD []).lookup "seq" = some (.num 2) := by
  refine ⟨?_, ?_, ?_, by rfl, by rfl, by rfl⟩
  · intro event st series_id prev prev_text new_text hsid hmode hprev hpt hnt
    obtain ⟨eid, etid, eidx, ets, etype, elevel, edata, esid, esmode⟩ := event
    dsimp only at hsid hmode hprev hpt hnt
    subst hsid
    subst hmode
    simp only [process_series, hprev, hpt, hnt, Option.some_bind,
      Option.map_some']
    refine ⟨trivial, ?_, ?_⟩
    · simp [getTextField, Json.asObject, lookup_insertA_self, Json.asStr]
    · intro k hk
      simp [Json.asObject, lookup_insertA_ne k "text" _ hk]
  · intro event st series_id hsid hmode hcase
    rcases hcase with hnone | ⟨prev, hprev, hfail⟩
    · simp only [process_series, hsid, hmode, hnone]
    · rcases hfail with hp | hn
      · simp only [process_series, hsid, hmode, hprev, hp, Option.none_bind]
      · simp only [process_series, hsid, hmode, hprev, hn, Option.map_none',
          Option.bind_none, Option.bind_some, Option.some_bind]
  · intro event st series_id hsid hmode
    simp only [process_series, hsid, hmode]
    cases hprev : get_series_latest st event.task_id series_id with
    | none =>
      simp [get_series_latest, set_series_latest, lookup_insertA_self]
    | some prev =>
      cases hsc : (getTextField prev.data).bind fun prev_text =>
          (getTextField event.data).map fun new_text =>
            (prev_text, new_text) with
      | none =>
        simp [hsc, get_series_latest, set_series_latest, lookup_insertA_self]
      | some pair =>
        simp [hsc, get_series_latest, set_series_latest, seriesKey,
          lookup_insertA_self]

/-- Witness for C7: the concatenating branch applied to the second concrete
`accumulate` call (previous text `"a"`, new text `"b"`). -/
theorem process_series_accumulate_characterization_witness :
    getTextField (process_series (accEvent "e2" 1 "b") accRun1.2).1.data =
      some ("a" ++ "b") :=
  (process_series_accumulate_characterization.1 (accEvent "e2" 1 "b") accRun1.2
    "s1" (accEvent "e1" 0 "a") "a" "b" rfl rfl (by rfl) (by rfl)
    (by rfl)).2.1

-- ─── Task engine (taskcast-core/src/engine.rs) ──────────────────────────────

inductive EngineError where
  | taskNotFound (id : String)
  | invalidTransition (tfrom tto : TaskStatus)
  | taskTerminal (status : TaskStatus)
deriving Repr

structure PublishEventInput where
  type : String
  level : Level
  data : Json
  series_id : Option String
  series_mode : Option SeriesMode
deriving Repr

/-- Engine state: the short-term store plus the trace of events handed to
`broadcast.publish` (channel = task id). The engine is modelled in the
`long_term = None`, `hooks = None` configuration; the claims under
verification concern only the short-term store and the broadcast trace. -/
structure EngineState where
  store : Store
  published : List (String × TaskEvent)

/-- Private `emit`: `next_index`, build the raw event (the generated ulid and
`now_millis()` become the `fresh_id` / `now` parameters), run the series
processor, append the final event, hand it to broadcast. -/
def emit (es : EngineState) (task_id : String) (input : PublishEventInput)
    (fresh_id : String) (now : Int) : TaskEvent × EngineState :=
  let (index, st1) := next_index es.store task_id
  let raw : TaskEvent :=
    ⟨fresh_id, task_id, index, now, input.type, input.level, input.data,
     input.series_id, input.series_mode⟩
  let (event, st2) := process_series raw st1
  let st3 := append_event st2 task_id event
  (event, ⟨st3, es.published ++ [(task_id, event)]⟩)

def publish_event (es : EngineState) (task_id : String)
    (input : PublishEventInput) (fresh_id : String) (now : Int) :
    Except EngineError TaskEvent × EngineState :=
  match get_task es.store task_id with
  | none => (.error (.taskNotFound task_id), es)
  | some task =>
    if is_terminal task.status then (.error (.taskTerminal task.status), es)
    else
      let (event, es') := emit es task_id input fresh_id now
      (.ok event, es')

/-- C2: publishing to a task in a terminal status returns the `TaskTerminal`
error and leaves the whole engine state untouched: the store (tasks, event
logs, series map, index counters) and the broadcast trace are returned
exactly as they were, so no index is consumed, no event is appended and
nothing is broadcast. -/
theorem publish_event_terminal_lockout :
    ∀ (es : EngineState) (task_id : String) (input : PublishEventInput)
      (fresh_id : String) (now : Int) (task : Task),
      get_task es.store task_id = some task →
      is_terminal task.status = true →
      publish_event es task_id input fresh_id now =
        (.error (.taskTerminal task.status), es) := by
  intro es task_id input fresh_id now task hget hterm
  simp only [publish_event, hget, hterm, if_true]

def termTask : Task :=
  ⟨"t1", some "crawl", .completed, none, none, none, none,
   1000, 2000, some 2000, none, none, none, none⟩

/-- Witness for C2: a store holding one completed task. -/
theorem publish_event_terminal_lockout_witness :
    publish_event ⟨⟨[("t1", termTask)], [], [], []⟩, []⟩ "t1"
        ⟨"progress", .info, .null, none, none⟩ "e9" 3000 =
      (.error (.taskTerminal .completed), ⟨⟨[("t1", termTask)], [], [], []⟩, []⟩) :=
  publish_event_terminal_lockout ⟨⟨[("t1", termTask)], [], [], []⟩, []⟩ "t1"
    ⟨"progress", .info, .null, none, none⟩ "e9" 3000 termTask rfl rfl

-- ─── C3 scenario: engine-level `latest` series publishes ────────────────────

def latestInput (text : String) : PublishEventInput :=
  ⟨"llm.delta", .info, .obj [("text", .str text)], some "s1", some .latest⟩

def runningTask : Task :=
  ⟨"t1", none, .running, none, none, none, none, 1000, 1000, none,
   none, none, none, none⟩

def c3Init : EngineState := ⟨⟨[("t1", runningTask)], [], [], []⟩, []⟩

def c3Step1 : Except EngineError TaskEvent × EngineState :=
  publish_event c3Init "t1" (latestInput "one") "e1" 1001

def c3Step2 : Except EngineError TaskEvent × EngineState :=
  publish_event c3Step1.2 "t1" (latestInput "two") "e2" 1002

/-- C3 fails on the code: one `publish_event` with `seriesMode = latest`
leaves TWO log entries for the series (`replace_last_series_event` already
appends the event when no previous series-latest exists, and `emit` then
appends it again), and a second publish leaves three (`e1, e2, e2`), not the
single entry the claim requires. -/
theorem latest_series_duplicates_log_entries :
    ((get_events c3Step1.2.store "t1" none).filter
        fun e => e.series_id == some "s1").length = 2
    ∧ ((get_events c3Step2.2.store "t1" none).filter
        fun e => e.series_id == some "s1").length = 3
    ∧ (get_events c3Step1.2.store "t1" none).map (fun e => e.id) = ["e1", "e1"]
    ∧ (get_events c3Step2.2.store "t1" none).map (fun e => e.id) =
        ["e1", "e2", "e2"] :=
  ⟨rfl, rfl, rfl, rfl⟩

-- ─── C1: next_index over arbitrary interleaved store operations ─────────────

/-- One call to any `ShortTermStore` method. Every method body is atomic in
the source (it holds the relevant lock throughout), so an arbitrary
concurrent execution of store operations is some sequence of these. -/
inductive StoreOp where
  | saveTask (task : Task)
  | getTask (task_id : String)
  | appendEvent (task_id : String) (event : TaskEvent)
  | getEvents (task_id : String) (opts : Option EventQueryOptions)
  | setTTL (task_id : String) (ttl_seconds : Nat)
  | getSeriesLatest (task_id series_id : String)
  | setSeriesLatest (task_id series_id : String) (event : TaskEvent)
  | replaceLastSeriesEvent (task_id series_id : String) (event : TaskEvent)
  | nextIndex (task_id : String)

/-- Execute one operation; a `nextIndex` call also reports `(taskId, value)`. -/
def stepOp (st : Store) : StoreOp → Store × Option (String × Nat)
  | .saveTask task => (save_task st task, none)
  | .getTask _ => (st, none)
  | .appendEvent task_id event => (append_event st task_id event, none)
  | .getEvents _ _ => (st, none)
  | .setTTL task_id ttl_seconds => (set_ttl st task_id ttl_seconds, none)
  | .getSeriesLatest _ _ => (st, none)
  | .setSeriesLatest task_id series_id event =>
      (set_series_latest st task_id series_id event, none)
  | .replaceLastSeriesEvent task_id series_id event =>
      (replace_last_series_event st task_id series_id event, none)
  | .nextIndex task_id =>
      let (value, st') := next_index st task_id
      (st', some (task_id, value))

/-- Run a sequence of operations, collecting the `nextIndex` outputs. -/
def runOps (st : Store) : List StoreOp → Store × List (String × Nat)
  | [] => (st, [])
  | op :: rest =>
    let (st', out) := stepOp st op
    let (stf, outs) := runOps st' rest
    (stf, out.toList ++ outs)

/-- The values returned by `nextIndex` calls for task `t`, in call order,
starting from a fresh store. -/
def indexOutputs (t : String) (ops : List StoreOp) : List Nat :=
  ((runOps Store.empty ops).2.filter fun p => p.1 == t).map fun p => p.2

def isNextIndexFor (t : String) : StoreOp → Bool
  | .nextIndex task_id => task_id == t
  | _ => false

/-- How many `nextIndex` calls for task `t` a sequence contains. -/
def nextIndexCount (t : String) (ops : List StoreOp) : Nat :=
  (ops.filter (isNextIndexFor t)).length

def counterVal (st : Store) (t : String) : Nat :=
  (st.index_counters.lookup t).getD 0

theorem index_counters_replace_last (st : Store) (task_id series_id : String)
    (event : TaskEvent) :
    (replace_last_series_event st task_id series_id event).index_counters =
      st.index_counters := by
  simp only [replace_last_series_event, append_event]
  repeat' split
  all_goals rfl

theorem counterVal_stepOp_other (st : Store) (op : StoreOp) (t : String)
    (h : ∀ task_id, op ≠ .nextIndex task_id) :
    counterVal (stepOp st op).1 t = counterVal st t
    ∧ (stepOp st op).2 = none := by
  cases op with
  | saveTask task => exact ⟨rfl, rfl⟩
  | getTask task_id => exact ⟨rfl, rfl⟩
  | appendEvent task_id event => exact ⟨rfl, rfl⟩
  | getEvents task_id opts => exact ⟨rfl, rfl⟩
  | setTTL task_id ttl_seconds => exact ⟨rfl, rfl⟩
  | getSeriesLatest task_id series_id => exact ⟨rfl, rfl⟩
  | setSeriesLatest task_id series_id event => exact ⟨rfl, rfl⟩
  | replaceLastSeriesEvent task_id series_id event =>
    refine ⟨?_, rfl⟩
    show counterVal (replace_last_series_event st task_id series_id event) t
      = counterVal st t
    simp [counterVal, index_counters_replace_last]
  | nextIndex task_id => exact absurd rfl (h task_id)

theorem counterVal_next_index_self (st : Store) (t : String) :
    counterVal (next_index st t).2 t = (counterVal st t + 1) % u64Modulus := by
  simp [next_index, counterVal, lookup_insertA_self]

theorem counterVal_next_index_other (st : Store) (t u : String) (h : t ≠ u) :
    counterVal (next_index st u).2 t = counterVal st t := by
  simp [next_index, counterVal, lookup_insertA_ne t u _ h]

theorem u64Modulus_eq : u64Modulus = 18446744073709551616 := by
  norm_num [u64Modulus]

theorem mod_succ_mod_u64 (k : Nat) :
    (k % u64Modulus + 1) % u64Modulus = (k + 1) % u64Modulus := by
  rw [u64Modulus_eq]; omega

theorem runOps_cons_snd (st : Store) (op : StoreOp) (rest : List StoreOp) :
    (runOps st (op :: rest)).2 =
      (stepOp st op).2.toList ++ (runOps (stepOp st op).1 rest).2 := rfl

theorem runOps_nextIndex_trace (t : String) :
    ∀ (ops : List StoreOp) (st : Store) (k : Nat),
      counterVal st t = k % u64Modulus →
      ((runOps st ops).2.filter fun p => p.1 == t).map (fun p => p.2) =
        (List.range (nextIndexCount t ops)).map fun j => (k + j) % u64Modulus := by
  intro ops
  induction ops with
  | nil => intro st k hk; simp [runOps, nextIndexCount]
  | cons op rest ih =>
    intro st k hk
    by_cases hop : ∃ task_id, op = .nextIndex task_id
    · obtain ⟨task_id, rfl⟩ := hop
      have hout : (stepOp st (.nextIndex task_id)).2 =
          some (task_id, counterVal st task_id) := rfl
      by_cases ht : task_id = t
      · subst ht
        have hstep : counterVal (stepOp st (.nextIndex task_id)).1 task_id =
            (k + 1) % u64Modulus := by
          have hself := counterVal_next_index_self st task_id
          rw [hk, mod_succ_mod_u64] at hself
          exact hself
        have hrest := ih (stepOp st (.nextIndex task_id)).1 (k + 1) hstep
        have hcount : nextIndexCount task_id (StoreOp.nextIndex task_id :: rest) =
            nextIndexCount task_id rest + 1 := by
          simp [nextIndexCount, isNextIndexFor]
        rw [runOps_cons_snd, hout, Option.toList_some, List.singleton_append,
          List.filter_cons]
        simp only [beq_self_eq_true, if_true, List.map_cons, hrest, hcount,
          List.range_succ_eq_map, List.map_map]
        refine congrArg₂ _ ?_ ?_
        · rw [hk, Nat.add_zero]
        · apply List.map_congr_left
          intro j hj
          show (k + 1 + j) % u64Modulus = (k + (j + 1)) % u64Modulus
          congr 1
          omega
      · have hne : (task_id == t) = false := by simpa using ht
        have hstep : counterVal (stepOp st (.nextIndex task_id)).1 t =
            k % u64Modulus := by
          rw [← hk]
          exact counterVal_next_index_other st t task_id (fun h => ht h.symm)
        have hrest := ih (stepOp st (.nextIndex task_id)).1 k hstep
        have hcount : nextIndexCount t (StoreOp.nextIndex task_id :: rest) =
            nextIndexCount t rest := by
          simp [nextIndexCount, isNextIndexFor, hne]
        rw [runOps_cons_snd, hout, Option.toList_some, List.singleton_append,
          List.filter_cons, hcount]
        simp only [hne, Bool.false_eq_true, if_false]
        exact hrest
    · have hother : ∀ task_id, op ≠ .nextIndex task_id := by
        intro task_id h
        exact hop ⟨task_id, h⟩
      obtain ⟨hcv, hout⟩ := counterVal_stepOp_other st op t hother
      have hrest := ih (stepOp st op).1 k (by rw [hcv]; exact hk)
      have hflag : isNextIndexFor t op = false := by
        cases op with
        | nextIndex task_id => exact absurd rfl (hother task_id)
        | saveTask task => rfl
        | getTask task_id => rfl
        | appendEvent task_id event => rfl
        | getEvents task_id opts => rfl
        | setTTL task_id ttl_seconds => rfl
        | getSeriesLatest task_id series_id => rfl
        | setSeriesLatest task_id series_id event => rfl
        | replaceLastSeriesEvent task_id series_id event => rfl
      have hcount : nextIndexCount t (op :: rest) = nextIndexCount t rest := by
        simp [nextIndexCount, List.filter_cons, hflag]
      rw [runOps_cons_snd, hout, Option.toList_none, List.nil_append, hcount]
      exact hrest

/-- C1: starting from a fresh in-memory store, over any sequence of store
operations containing `n` `next_index` calls for task `t` (with arbitrary
other operations on any tasks interleaved, `n` within the `u64` range), the
values returned by those calls are exactly `0, 1, …, n-1` in order — unique,
monotonically increasing, and dense starting at 0. -/
theorem next_index_dense :
    ∀ (t : String) (ops : List StoreOp),
      nextIndexCount t ops ≤ u64Modulus →
      indexOutputs t ops = List.range (nextIndexCount t ops) := by
  intro t ops hle
  have h := runOps_nextIndex_trace t ops Store.empty 0 (by simp [counterVal, Store.empty])
  unfold indexOutputs
  rw [h]
  have : ∀ j ∈ List.range (nextIndexCount t ops), (0 + j) % u64Modulus = j := by
    intro j hj
    have hjn : j < nextIndexCount t ops := List.mem_range.mp hj
    have : j < u64Modulus := lt_of_lt_of_le hjn hle
    simp [Nat.mod_eq_of_lt this]
  calc (List.range (nextIndexCount t ops)).map (fun j => (0 + j) % u64Modulus)
      = (List.range (nextIndexCount t ops)).map id := List.map_congr_left this
    _ = List.range (nextIndexCount t ops) := List.map_id _

/-- Witness for C1: three `nextIndex` calls for `"t"` interleaved with other
store operations (including `nextIndex` for a different task) return 0, 1, 2. -/
theorem next_index_dense_witness :
    indexOutputs "t"
        [.nextIndex "t", .saveTask termTask,
         .appendEvent "t" ⟨"e1", "t", 0, 1000, "a", .info, .null, none, none⟩,
         .nextIndex "t", .nextIndex "u", .setTTL "t" 60, .nextIndex "t"] =
      List.range (nextIndexCount "t"
        [.nextIndex "t", .saveTask termTask,
         .appendEvent "t" ⟨"e1", "t", 0, 1000, "a", .info, .null, none, none⟩,
         .nextIndex "t", .nextIndex "u", .setTTL "t" 60, .nextIndex "t"]) :=
  next_index_dense "t" _ (by decide)

-- ─── Cleanup matcher (taskcast-core/src/cleanup.rs) ─────────────────────────

/-- The `rule.match.status` early-return of `matches_cleanup_rule`: true when
the rule lists statuses and the task's status is not among them. -/
def cleanup_status_rejects (task : Task) (rule : CleanupRule) : Bool :=
  match rule.rmatch with
  | some rule_match =>
    match rule_match.status with
    | some statuses => !(statuses.contains task.status)
    | none => false
  | none => false

/-- The `rule.match.taskTypes` early-return: true when the rule lists type
patterns and the task either has no type or its type matches none of them. -/
def cleanup_task_types_reject (task : Task) (rule : CleanupRule) : Bool :=
  match rule.rmatch with
  | some rule_match =>
    match rule_match.task_types with
    | some task_types =>
      match task.type with
      | some t => !(matches_type t (some task_types))
      | none => true
    | none => false
  | none => false

/-- The `rule.trigger.afterMs` check: enough time elapsed since completion. -/
def cleanup_trigger_accepts (task : Task) (rule : CleanupRule) (now : Int) : Bool :=
  match rule.trigger.after_ms with
  | some after_ms =>
    let completed_at := task.completed_at.getD task.updated_at
    let elapsed := now - completed_at
    if elapsed < (after_ms : Int) then false else true
  | none => true

def matches_cleanup_rule (task : Task) (rule : CleanupRule) (now : Int) : Bool :=
  if !(is_terminal task.status) then false
  else if cleanup_status_rejects task rule then false
  else if cleanup_task_types_reject task rule then false
  else cleanup_trigger_accepts task rule now

/-- Spec-side restatement of the C9 claim's conditions. -/
def matchesCleanupRuleSpec (task : Task) (rule : CleanupRule) (now : Int) : Prop :=
  is_terminal task.status = true
  ∧ (match rule.rmatch with
     | none => True
     | some rule_match =>
       match rule_match.status with
       | none => True
       | some statuses => task.status ∈ statuses)
  ∧ (match rule.rmatch with
     | none => True
     | some rule_match =>
       match rule_match.task_types with
       | none => True
       | some task_types =>
         match task.type with
         | none => False
         | some t => matches_type t (some task_types) = true)
  ∧ (match rule.trigger.after_ms with
     | none => True
     | some after_ms =>
       (after_ms : Int) ≤ now - (task.completed_at.getD task.updated_at))

theorem cleanup_status_rejects_iff (task : Task) (rule : CleanupRule) :
    cleanup_status_rejects task rule = false ↔
      (match rule.rmatch with
       | none => True
       | some rule_match =>
         match rule_match.status with
         | none => True
         | some statuses => task.status ∈ statuses) := by
  obtain ⟨rname, rmatch, rtrigger, rtarget, ref⟩ := rule
  cases rmatch with
  | none => simp [cleanup_status_rejects]
  | some rule_match =>
    obtain ⟨mtypes, mstatus⟩ := rule_match
    cases mstatus with
    | none => simp [cleanup_status_rejects]
    | some statuses => simp [cleanup_status_rejects]

theorem cleanup_task_types_reject_iff (task : Task) (rule : CleanupRule) :
    cleanup_task_types_reject task rule = false ↔
      (match rule.rmatch with
       | none => True
       | some rule_match =>
         match rule_match.task_types with
         | none => True
         | some task_types =>
           match task.type with
           | none => False
           | some t => matches_type t (some task_types) = true) := by
  obtain ⟨rname, rmatch, rtrigger, rtarget, ref⟩ := rule
  cases rmatch with
  | none => simp [cleanup_task_types_reject]
  | some rule_match =>
    obtain ⟨mtypes, mstatus⟩ := rule_match
    cases mtypes with
    | none => simp [cleanup_task_types_reject]
    | some task_types =>
      cases htype : task.type with
      | none => simp [cleanup_task_types_reject, htype]
      | some t => simp [cleanup_task_types_reject, htype]

theorem cleanup_trigger_accepts_iff (task : Task) (rule : CleanupRule) (now : Int) :
    cleanup_trigger_accepts task rule now = true ↔
      (match rule.trigger.after_ms with
       | none => True
       | some after_ms =>
         (after_ms : Int) ≤ now - (task.completed_at.getD task.updated_at)) := by
  obtain ⟨rname, rmatch, ⟨after⟩, rtarget, ref⟩ := rule
  cases after with
  | none => simp [cleanup_trigger_accepts]
  | some after_ms =>
    by_cases h : now - (task.completed_at.getD task.updated_at) < (after_ms : Int) <;>
      · simp [cleanup_trigger_accepts, h]
        try omega

def crawlTask : Task :=
  ⟨"task_01", some "crawl", .completed, none, none, none, none,
   1000000, 2000000, some 2000000, none, none, none, none⟩

def crawlRule : CleanupRule :=
  ⟨none, some ⟨some ["crawl"], some [.completed]⟩, ⟨some 500000⟩, .all, none⟩

/-- C9: `matches_cleanup_rule` is true exactly when the task is terminal, its
status is in `rule.match.status` when that list is present, its type matches
one of `rule.match.taskTypes` under the `matches_type` rules when present (a
task without a type never matches), and — when `rule.trigger.afterMs` is
present — at least `afterMs` elapsed since `completedAt` (or `updatedAt` when
`completedAt` is absent). In particular the concrete crawl rule matches the
completed crawl task at `now = 2 600 000` and not at `now = 2 400 000`. -/
theorem matches_cleanup_rule_characterization :
    (∀ (task : Task) (rule : CleanupRule) (now : Int),
      matches_cleanup_rule task rule now = true ↔
        matchesCleanupRuleSpec task rule now)
    ∧ matches_cleanup_rule crawlTask crawlRule 2600000 = true
    ∧ matches_cleanup_rule crawlTask crawlRule 2400000 = false := by
  refine ⟨?_, by decide, by decide⟩
  intro task rule now
  by_cases h1 : is_terminal task.status = true
  · by_cases h2 : cleanup_status_rejects task rule = true
    · have hns : ¬ (match rule.rmatch with
          | none => True
          | some rule_match =>
            match rule_match.status with
            | none => True
            | some statuses => task.status ∈ statuses) := by
        rw [← cleanup_status_rejects_iff]
        simp [h2]
      simp [matches_cleanup_rule, matchesCleanupRuleSpec, h1, h2, hns]
    · have h2' : cleanup_status_rejects task rule = false := by simpa using h2
      have hs := (cleanup_status_rejects_iff task rule).mp h2'
      by_cases h3 : cleanup_task_types_reject task rule = true
      · have hnt : ¬ (match rule.rmatch with
            | none => True
            | some rule_match =>
              match rule_match.task_types with
              | none => True
              | some task_types =>
                match task.type with
                | none => False
                | some t => matches_type t (some task_types) = true) := by
          rw [← cleanup_task_types_reject_iff]
          simp [h3]
        simp [matches_cleanup_rule, matchesCleanupRuleSpec, h1, h2', h3, hnt]
      · have h3' : cleanup_task_types_reject task rule = false := by simpa using h3
        have ht := (cleanup_task_types_reject_iff task rule).mp h3'
        simp [matches_cleanup_rule, matchesCleanupRuleSpec, h1, h2', h3', hs, ht,
          cleanup_trigger_accepts_iff]
  · have h1' : is_terminal task.status = false := by simpa using h1
    simp [matches_cleanup_rule, matchesCleanupRuleSpec, h1']

/-- Witness for C9: the characterization applied to the concrete crawl task
and rule at `now = 2 600 000`, discharging the spec side explicitly. -/
theorem matches_cleanup_rule_characterization_witness :
    matches_cleanup_rule crawlTask crawlRule 2600000 = true :=
  (matches_cleanup_rule_characterization.1 crawlTask crawlRule 2600000).mpr
    ⟨by decide,
     by show crawlTask.status ∈ [TaskStatus.completed]; decide,
     by show matches_type "crawl" (some ["crawl"]) = true; decide,
     by show (500000 : Int) ≤
          2600000 - (crawlTask.completed_at.getD crawlTask.updated_at); decide⟩

end Taskcast
